import Mathlib

/-!
Shallow embedding of the xcat terminal previewer's two core subsystems:
the style/document model and viewport controller (src/document.rs,
src/viewer.rs) and the markdown-to-document transducer
(src/format/markdown.rs).  Machine integers are modelled as `Nat`;
`saturating_sub` is Lean's truncated `Nat` subtraction, and the wrapping
additions on `u16` / `u64` fields are written with an explicit `% 2^w`.
-/

namespace Xcat

/-- Bit-flag style attributes, `TextStyle(u32)` in src/document.rs.
The `u32` payload is a `Nat` that the program only ever populates with
the six low bits. -/
structure TextStyle where
  val : Nat
deriving DecidableEq, Repr

namespace TextStyle

def NONE : TextStyle := ⟨0⟩
def BOLD : TextStyle := ⟨1⟩
def ITALIC : TextStyle := ⟨2⟩
def DIM : TextStyle := ⟨4⟩
def HEADING : TextStyle := ⟨8⟩
def QUOTE : TextStyle := ⟨16⟩
def CODE : TextStyle := ⟨32⟩

/-- `self.0 & other.0 == other.0`. -/
def contains (s o : TextStyle) : Bool := s.val &&& o.val == o.val

/-- `self.0 |= other.0` (modelled functionally). -/
def insert (s o : TextStyle) : TextStyle := ⟨s.val ||| o.val⟩

/-- `self.0 &= !other.0`.  On a `u32`, `!other.0` is the 32-bit
complement, i.e. `(2^32 - 1) XOR other.0` for in-range values. -/
def remove (s o : TextStyle) : TextStyle := ⟨s.val &&& ((2 ^ 32 - 1) ^^^ o.val)⟩

/-- `impl BitOr for TextStyle`. -/
def or (s o : TextStyle) : TextStyle := ⟨s.val ||| o.val⟩

end TextStyle

/-- `TextSpan { text, style }`; text is the character list of the Rust
`String`. -/
structure TextSpan where
  text : List Char
  style : TextStyle
deriving DecidableEq, Repr

/-- `RenderLine { spans, indent }`; `indent: u16` modelled as `Nat`. -/
structure RenderLine where
  spans : List TextSpan := []
  indent : Nat := 0
deriving DecidableEq, Repr

/-- `Document { lines }`. -/
structure Document where
  lines : List RenderLine := []
deriving DecidableEq, Repr

/-! ## Viewport controller (src/viewer.rs) -/

/-- The navigation keys `Viewer::handle_key` reacts to; `other` stands
for every key falling through to the wildcard arm. -/
inductive Key where
  | j | k | l | h | d | u | g | GG | other
deriving DecidableEq, Repr

/-- The mutable viewport fields of `Viewer`: `top_line`, `left_col`,
`cursor_line` (all `usize`). -/
structure ViewState where
  top_line : Nat := 0
  left_col : Nat := 0
  cursor_line : Nat := 0
deriving DecidableEq, Repr

/-- `Viewer::scroll_to_cursor`, with the visible row count `page`
(`content_rows()`) passed explicitly. -/
def scrollToCursor (page : Nat) (s : ViewState) : ViewState :=
  if s.cursor_line < s.top_line then
    { s with top_line := s.cursor_line }
  else if s.cursor_line ≥ s.top_line + page then
    { s with top_line := s.cursor_line - (page - 1) }
  else s

/-- `Viewer::handle_key`: `totalLines` is `doc.lines.len()`, `page` is
`content_rows()`; `max_line = total.saturating_sub(1)`.  The cursor
arithmetic stays far below `usize::MAX` (the document lives in memory),
so plain `Nat` addition is exact; `left_col += 1` is written with the
`u64` wrap of a release-mode `usize`. -/
def handleKey (totalLines page : Nat) (code : Key) (s : ViewState) : ViewState :=
  let maxLine := totalLines - 1
  let s' : ViewState :=
    match code with
    | .j => { s with cursor_line := min (s.cursor_line + 1) maxLine }
    | .k => { s with cursor_line := s.cursor_line - 1 }
    | .l => { s with left_col := (s.left_col + 1) % 2 ^ 64 }
    | .h => { s with left_col := s.left_col - 1 }
    | .d => { s with cursor_line := min (s.cursor_line + page / 2) maxLine }
    | .u => { s with cursor_line := s.cursor_line - page / 2 }
    | .g => { s with cursor_line := 0, left_col := 0 }
    | .GG => { s with cursor_line := maxLine }
    | .other => s
  scrollToCursor page s'

/-- Applying a finite key sequence from a given state. -/
def applyKeys (totalLines page : Nat) (s : ViewState) : List Key → ViewState
  | [] => s
  | key :: ks => applyKeys totalLines page (handleKey totalLines page key s) ks

/-- The initial viewport of `Viewer::new`. -/
def initView : ViewState := {}

/-- The §3 viewport invariant: cursor within `[0, max(0,total-1)]`, and
cursor inside the window whenever the document is nonempty. -/
def ViewInv (totalLines page : Nat) (s : ViewState) : Prop :=
  s.cursor_line ≤ totalLines - 1 ∧
    (0 < totalLines →
      s.top_line ≤ s.cursor_line ∧ s.cursor_line < s.top_line + page)

instance (t p : Nat) (s : ViewState) : Decidable (ViewInv t p s) := by
  unfold ViewInv; infer_instance

/-! ## Markdown transducer (src/format/markdown.rs) -/

/-- Display width of one character.  The source delegates to the
`unicode-width` crate; here East-Asian wide blocks are modelled by
representative code-point ranges (CJK, Hangul, fullwidth forms), every
other character counting one column.  None of the verified properties
depend on the exact wide table, only on additivity and on the space
character having width 1. -/
def charWidth (c : Char) : Nat :=
  let n := c.toNat
  if (0x1100 ≤ n ∧ n ≤ 0x115F) ∨ (0x2E80 ≤ n ∧ n ≤ 0xA4CF) ∨
      (0xAC00 ≤ n ∧ n ≤ 0xD7A3) ∨ (0xF900 ≤ n ∧ n ≤ 0xFAFF) ∨
      (0xFF00 ≤ n ∧ n ≤ 0xFF60) ∨ (0xFFE0 ≤ n ∧ n ≤ 0xFFE6) then 2
  else 1

/-- `UnicodeWidthStr::width`. -/
def strWidth (s : List Char) : Nat := (s.map charWidth).sum

/-- `pad_to_width`. -/
def padToWidth (text : List Char) (target : Nat) : List Char :=
  if strWidth text ≥ target then text
  else text ++ List.replicate (target - strWidth text) ' '

/-- `ListContext { is_ordered, item_index: u64 }`. -/
structure ListContext where
  is_ordered : Bool
  item_index : Nat
deriving DecidableEq, Repr

/-- `ParseState`.  The Rust `Vec` stacks (`list_stack`) push and pop at
the end; they are modelled with the list head as the stack top.  Row and
cell buffers (`table_rows`, `current_row`) push at the end and are read
front-to-back, so they are modelled in push order. -/
structure ParseState where
  doc : Document := {}
  current_line : RenderLine := {}
  current_style : TextStyle := TextStyle.NONE
  indent_level : Nat := 0
  in_code_block : Bool := false
  line_has_content : Bool := false
  list_stack : List ListContext := []
  in_table : Bool := false
  in_table_head : Bool := false
  in_table_cell : Bool := false
  table_rows : List (List (List Char)) := []
  current_row : List (List Char) := []
  current_cell_text : List Char := []
deriving DecidableEq, Repr

/-- `ParseState::flush_line`. -/
def flushLine (st : ParseState) : ParseState :=
  { st with
    doc := ⟨st.doc.lines ++ [{ st.current_line with indent := st.indent_level }]⟩
    current_line := {}
    line_has_content := false }

/-- `ParseState::add_empty_line`: pushes `RenderLine::default()`. -/
def addEmptyLine (st : ParseState) : ParseState :=
  { st with doc := ⟨st.doc.lines ++ [{}]⟩ }

/-- `ParseState::push_span`. -/
def pushSpan (st : ParseState) (text : List Char) (style : TextStyle) : ParseState :=
  if text = [] then st
  else
    { st with
      current_line := { st.current_line with
                        spans := st.current_line.spans ++ [⟨text, style⟩] }
      line_has_content := true }

/-- `num_cols`: maximum row length over all accumulated rows, 0 when
there are none. -/
def numColsOf (rows : List (List (List Char))) : Nat :=
  (rows.map List.length).foldl max 0

/-- The inner width loop of `render_table` for one row:
`col_widths[i] = col_widths[i].max(width(cell))` for each indexed cell.
The `[] , cell :: _` case is the out-of-bounds index of `col_widths[i]`,
unreachable because every row is at most `num_cols` long. -/
def bumpWidths : List Nat → List (List Char) → List Nat
  | cw, [] => cw
  | [], _ :: _ => []
  | w :: ws, cell :: cells => max w (strWidth cell) :: bumpWidths ws cells

/-- `col_widths` after the nested loops: fold the per-row bump over
`vec![0; num_cols]`. -/
def colWidthsList (rows : List (List (List Char))) (n : Nat) : List Nat :=
  rows.foldl bumpWidths (List.replicate n 0)

/-- The two-space inter-column separator span. -/
def sepSpan : TextSpan := ⟨[' ', ' '], TextStyle.NONE⟩

/-- One rendered table row: per column the padded cell
(`row.get(c).unwrap_or("")`, padded to `col_widths[c]`), a separator
before every column but the first — i.e. separators interspersed between
the cell spans. -/
def rowLine (indent : Nat) (cw : List Nat) (n : Nat) (attrs : TextStyle)
    (row : List (List Char)) : RenderLine :=
  ⟨List.intersperse sepSpan
      ((List.range n).map fun c =>
        ⟨padToWidth (row.getD c []) (cw.getD c 0), attrs⟩),
    indent⟩

/-- The dash separator line emitted after the header row. -/
def dashLine (indent : Nat) (cw : List Nat) (n : Nat) : RenderLine :=
  ⟨List.intersperse sepSpan
      ((List.range n).map fun c =>
        ⟨List.replicate (cw.getD c 0) '─', TextStyle.DIM⟩),
    indent⟩

/-- The lines produced by `render_table`'s row loop: the enumerate loop
styles row 0 as the header (`BOLD | HEADING`), pushes the dash line right
after it, and leaves data rows unstyled. -/
def tableLines (indent : Nat) (cw : List Nat) (n : Nat) :
    List (List (List Char)) → List RenderLine
  | [] => []
  | hd :: tl =>
      rowLine indent cw n (TextStyle.BOLD.or TextStyle.HEADING) hd ::
        dashLine indent cw n ::
          tl.map (rowLine indent cw n TextStyle.NONE)

/-- `ParseState::render_table`. -/
def renderTable (st : ParseState) : ParseState :=
  if st.table_rows = [] then st
  else
    let n := numColsOf st.table_rows
    if n = 0 then st
    else
      let cw := colWidthsList st.table_rows n
      let st1 := { st with
                   doc := ⟨st.doc.lines ++ tableLines st.indent_level cw n st.table_rows⟩ }
      let st2 := addEmptyLine st1
      { st2 with table_rows := [] }

/-- The markup events the transducer matches on; `other` is the
wildcard arm.  `listStart` carries `Option<u64>` (the declared first
index); text payloads are character lists. -/
inductive MdEvent where
  | headingStart | headingEnd
  | paragraphStart | paragraphEnd
  | codeBlockStart | codeBlockEnd
  | listStart (firstIndex : Option Nat) | listEnd
  | itemStart | itemEnd
  | blockQuoteStart | blockQuoteEnd
  | rule
  | tableStart | tableEnd
  | tableHeadStart | tableHeadEnd
  | tableRowStart | tableRowEnd
  | tableCellStart | tableCellEnd
  | strongStart | strongEnd
  | emphasisStart | emphasisEnd
  | code (text : List Char)
  | text (text : List Char)
  | softBreak | hardBreak
  | other
deriving DecidableEq, Repr

/-- The `Event::Text` handling inside a code block: split on newlines,
flush before every piece but the first, push each nonempty piece. -/
def codeLinesLoop : ParseState → Bool → List (List Char) → ParseState
  | st, _, [] => st
  | st, first, piece :: rest =>
      let st1 := if first then st else flushLine st
      let st2 := pushSpan st1 piece st1.current_style
      codeLinesLoop st2 false rest

/-- One step of `parse_markdown`'s event loop. -/
def stepE (st : ParseState) (e : MdEvent) : ParseState :=
  match e with
  | .headingStart =>
      { st with current_style := st.current_style.insert (TextStyle.BOLD.or TextStyle.HEADING) }
  | .headingEnd =>
      let st := { st with current_style := st.current_style.remove (TextStyle.BOLD.or TextStyle.HEADING) }
      addEmptyLine (flushLine st)
  | .paragraphStart => st
  | .paragraphEnd => if st.in_table then st else addEmptyLine (flushLine st)
  | .codeBlockStart =>
      let st := { st with in_code_block := true,
                          current_style := st.current_style.insert TextStyle.CODE }
      let st := flushLine st
      let st := pushSpan st (List.replicate 3 '─') TextStyle.DIM
      flushLine st
  | .codeBlockEnd =>
      let st := if st.line_has_content then flushLine st else st
      let st := pushSpan st (List.replicate 3 '─') TextStyle.DIM
      let st := flushLine st
      { st with in_code_block := false,
                current_style := st.current_style.remove TextStyle.CODE }
  | .listStart firstIndex =>
      { st with
        list_stack := ⟨firstIndex.isSome, (firstIndex.getD 1) - 1⟩ :: st.list_stack
        indent_level := (st.indent_level + 4) % 2 ^ 16 }
  | .listEnd =>
      let st := { st with list_stack := st.list_stack.tail,
                          indent_level := st.indent_level - 4 }
      if st.indent_level = 0 then addEmptyLine st else st
  | .itemStart =>
      match st.list_stack with
      | [] => st
      | ctx :: rest =>
          if ctx.is_ordered then
            let idx := (ctx.item_index + 1) % 2 ^ 64
            let st := { st with list_stack := { ctx with item_index := idx } :: rest }
            pushSpan st (Nat.toDigits 10 idx ++ ['.', ' ']) st.current_style
          else
            pushSpan st ['•', ' '] st.current_style
  | .itemEnd => flushLine st
  | .blockQuoteStart =>
      let st := { st with indent_level := (st.indent_level + 2) % 2 ^ 16,
                          current_style := st.current_style.insert TextStyle.QUOTE }
      pushSpan st ['│', ' '] (TextStyle.QUOTE.or TextStyle.DIM)
  | .blockQuoteEnd =>
      let st := { st with indent_level := st.indent_level - 2,
                          current_style := st.current_style.remove TextStyle.QUOTE }
      addEmptyLine (flushLine st)
  | .rule =>
      let st := flushLine st
      let st := pushSpan st (List.replicate 32 '─') TextStyle.DIM
      flushLine st
  | .tableStart => { st with in_table := true, table_rows := [] }
  | .tableEnd => renderTable { st with in_table := false }
  | .tableHeadStart => { st with in_table_head := true }
  | .tableHeadEnd => { st with in_table_head := false }
  | .tableRowStart => { st with current_row := [] }
  | .tableRowEnd =>
      { st with table_rows := st.table_rows ++ [st.current_row], current_row := [] }
  | .tableCellStart => { st with in_table_cell := true, current_cell_text := [] }
  | .tableCellEnd =>
      { st with in_table_cell := false,
                current_row := st.current_row ++ [st.current_cell_text],
                current_cell_text := [] }
  | .strongStart => { st with current_style := st.current_style.insert TextStyle.BOLD }
  | .strongEnd => { st with current_style := st.current_style.remove TextStyle.BOLD }
  | .emphasisStart => { st with current_style := st.current_style.insert TextStyle.ITALIC }
  | .emphasisEnd => { st with current_style := st.current_style.remove TextStyle.ITALIC }
  | .code t =>
      if st.in_table_cell then { st with current_cell_text := st.current_cell_text ++ t }
      else pushSpan st t (st.current_style.or TextStyle.CODE)
  | .text t =>
      if st.in_table_cell then { st with current_cell_text := st.current_cell_text ++ t }
      else if st.in_code_block then codeLinesLoop st true (List.splitOn '\n' t)
      else pushSpan st t st.current_style
  | .softBreak => if st.in_table_cell then st else pushSpan st [' '] st.current_style
  | .hardBreak => if st.in_table_cell then st else flushLine st
  | .other => st

/-- `ParseState::new()`. -/
def initParseState : ParseState := {}

/-- `parse_markdown`, over the event stream the upstream parser yields:
fold the step over all events, flush a trailing partial line, return the
document. -/
def parseMarkdown (events : List MdEvent) : Document :=
  let st := events.foldl stepE initParseState
  (if st.line_has_content then flushLine st else st).doc

/-- A two-item ordered list whose list-start event declares starting
index `s`, with one text leaf per item. -/
def twoItemOrderedList (s : Nat) : List MdEvent :=
  [.listStart (some s), .itemStart, .text ['x'], .itemEnd,
    .itemStart, .text ['y'], .itemEnd, .listEnd]

/-- Entries of a list at even (flag `true` start) or odd positions. -/
def alternatingEntries {α : Type} : Bool → List α → List α
  | _, [] => []
  | true, a :: rest => a :: alternatingEntries false rest
  | false, _ :: rest => alternatingEntries true rest

/-- The cell fragments of a rendered table line: the spans at even
positions — the two-space separator spans sit between consecutive
cells. -/
def cellFragments (ℓ : RenderLine) : List TextSpan :=
  alternatingEntries true ℓ.spans

/-- The maximum display width of column `c` over all accumulated rows
(absent cells counting zero) — the quantity the spec calls the column's
computed width. -/
def colMaxWidth (rows : List (List (List Char))) (c : Nat) : Nat :=
  (rows.map fun r => strWidth (r.getD c [])).foldl max 0

/-- A parse state holding the spec's example table: header row
`"A","BB"`, one data row `"C","D"`. -/
def tableStDemo : ParseState :=
  { table_rows := [[['A'], ['B', 'B']], [['C'], ['D']]] }

/-! ### Checked (Option-valued) table rendering

`render_table` contains the transducer's only partial operations: the
slice indexings `col_widths[i]` and `col_widths[c]`, which panic when
out of bounds.  The checked variants below return `none` exactly where
the source would panic; proving them total settles the no-failure
claim. -/

/-- `bumpWidths` with the `col_widths[i]` indexing made explicit: a row
longer than the width vector would be the out-of-bounds panic. -/
def bumpWidthsO : List Nat → List (List Char) → Option (List Nat)
  | cw, [] => some cw
  | [], _ :: _ => none
  | w :: ws, cell :: cells =>
      (bumpWidthsO ws cells).map fun rest => max w (strWidth cell) :: rest

/-- Checked `col_widths` accumulation. -/
def colWidthsListO (rows : List (List (List Char))) (n : Nat) :
    Option (List Nat) :=
  rows.foldlM (fun cw r => bumpWidthsO cw r) (List.replicate n 0)

/-- Checked rendered table row: `col_widths[c]` is a lookup that fails
out of bounds. -/
def rowLineO (indent : Nat) (cw : List Nat) (n : Nat) (attrs : TextStyle)
    (row : List (List Char)) : Option RenderLine := do
  let cells ← (List.range n).mapM fun c => do
    let w ← cw.get? c
    pure (⟨padToWidth (row.getD c []) w, attrs⟩ : TextSpan)
  pure ⟨List.intersperse sepSpan cells, indent⟩

/-- Checked dash separator line. -/
def dashLineO (indent : Nat) (cw : List Nat) (n : Nat) : Option RenderLine := do
  let dashes ← (List.range n).mapM fun c => do
    let w ← cw.get? c
    pure (⟨List.replicate w '─', TextStyle.DIM⟩ : TextSpan)
  pure ⟨List.intersperse sepSpan dashes, indent⟩

/-- Checked table lines. -/
def tableLinesO (indent : Nat) (cw : List Nat) (n : Nat) :
    List (List (List Char)) → Option (List RenderLine)
  | [] => some []
  | hd :: tl => do
      let h ← rowLineO indent cw n (TextStyle.BOLD.or TextStyle.HEADING) hd
      let d ← dashLineO indent cw n
      let rest ← tl.mapM (rowLineO indent cw n TextStyle.NONE)
      pure (h :: d :: rest)

/-- Checked `render_table`. -/
def renderTableO (st : ParseState) : Option ParseState :=
  if st.table_rows = [] then some st
  else
    let n := numColsOf st.table_rows
    if n = 0 then some st
    else do
      let cw ← colWidthsListO st.table_rows n
      let tl ← tableLinesO st.indent_level cw n st.table_rows
      let st1 := { st with doc := ⟨st.doc.lines ++ tl⟩ }
      pure { addEmptyLine st1 with table_rows := [] }

/-- Checked event step: identical to `stepE` except that closing a
table runs the checked renderer. -/
def stepO (st : ParseState) (e : MdEvent) : Option ParseState :=
  match e with
  | .tableEnd => renderTableO { st with in_table := false }
  | e' => some (stepE st e')

/-- Checked `parse_markdown`: `none` would mean the transducer hit a
panicking branch. -/
def parseMarkdownO (events : List MdEvent) : Option Document := do
  let st ← events.foldlM stepO initParseState
  pure (if st.line_has_content then flushLine st else st).doc

/-! ## Helper lemmas -/

theorem charWidth_space : charWidth ' ' = 1 := by decide

theorem strWidth_append (a b : List Char) :
    strWidth (a ++ b) = strWidth a + strWidth b := by
  simp [strWidth]

theorem strWidth_cons (c : Char) (l : List Char) :
    strWidth (c :: l) = charWidth c + strWidth l := by
  simp [strWidth]

theorem strWidth_replicate_space (n : Nat) :
    strWidth (List.replicate n ' ') = n := by
  induction n with
  | zero => rfl
  | succ k ih =>
    rw [List.replicate_succ, strWidth_cons, charWidth_space, ih]
    omega

theorem strWidth_padToWidth (s : List Char) (w : Nat) :
    strWidth (padToWidth s w) = max (strWidth s) w := by
  unfold padToWidth
  split_ifs with h
  · omega
  · rw [strWidth_append, strWidth_replicate_space]; omega

theorem scrollToCursor_left_col (page : Nat) (s : ViewState) :
    (scrollToCursor page s).left_col = s.left_col := by
  unfold scrollToCursor; split_ifs <;> rfl

theorem scrollToCursor_spec (page : Nat) (hp : 1 ≤ page) (s : ViewState) :
    (scrollToCursor page s).cursor_line = s.cursor_line ∧
      (scrollToCursor page s).top_line ≤ s.cursor_line ∧
      s.cursor_line < (scrollToCursor page s).top_line + page := by
  unfold scrollToCursor
  split_ifs with h1 h2 <;> simp <;> omega

theorem handleKey_inv (total page : Nat) (hp : 1 ≤ page) (key : Key)
    (s : ViewState) (hc : s.cursor_line ≤ total - 1) :
    ViewInv total page (handleKey total page key s) := by
  have base : ∀ s' : ViewState, s'.cursor_line ≤ total - 1 →
      ViewInv total page (scrollToCursor page s') := by
    intro s' h'
    obtain ⟨e1, e2, e3⟩ := scrollToCursor_spec page hp s'
    exact ⟨by omega, fun _ => ⟨by omega, by omega⟩⟩
  unfold handleKey
  cases key <;> apply base <;> simp <;> omega

theorem padToWidth_of_le (t : List Char) (w : Nat) (h : w ≤ strWidth t) :
    padToWidth t w = t := by
  unfold padToWidth; rw [if_pos (by omega)]

theorem insert_remove_bit (sv k : Nat) (h32 : sv < 2 ^ 32) (hk : k < 32)
    (hb : sv.testBit k = false) :
    (sv ||| 2 ^ k) &&& ((2 ^ 32 - 1) ^^^ 2 ^ k) = sv := by
  apply Nat.eq_of_testBit_eq
  intro i
  simp only [Nat.testBit_land, Nat.testBit_lor, Nat.testBit_xor,
    Nat.testBit_two_pow_sub_one, Nat.testBit_two_pow]
  by_cases hik : k = i
  · subst hik; simp [hb, hk]
  · by_cases hi : i < 32
    · simp [hik, hi]
    · have : sv.testBit i = false :=
        Nat.testBit_lt_two_pow
          (lt_of_lt_of_le h32 (Nat.pow_le_pow_right (by norm_num) (by omega)))
      simp [hik, hi, this]

theorem testBit_false_of_not_superset (sv k : Nat)
    (h : ¬ sv &&& 2 ^ k = 2 ^ k) : sv.testBit k = false := by
  by_contra hb
  apply h
  apply Nat.eq_of_testBit_eq
  intro i
  simp only [Nat.testBit_land, Nat.testBit_two_pow]
  by_cases hik : k = i
  · subst hik; simp at hb; simp [hb]
  · simp [hik]

theorem alternatingEntries_intersperse {α : Type} (sep : α) (l : List α) :
    alternatingEntries true (List.intersperse sep l) = l := by
  induction l with
  | nil => rfl
  | cons a t ih =>
    cases t with
    | nil => rfl
    | cons b t' =>
      rw [List.intersperse_cons_cons]
      show a :: alternatingEntries true (List.intersperse sep (b :: t')) = _
      rw [ih]

theorem foldl_max_ge (l : List Nat) (acc : Nat) :
    acc ≤ l.foldl max acc ∧ ∀ x ∈ l, x ≤ l.foldl max acc := by
  induction l generalizing acc with
  | nil => simp
  | cons a t ih =>
    refine ⟨?_, ?_⟩
    · exact le_trans (le_max_left acc a) (ih (max acc a)).1
    · intro x hx
      rw [List.foldl_cons]
      rcases List.mem_cons.mp hx with rfl | hx
      · exact le_trans (le_max_right acc x) (ih _).1
      · exact (ih _).2 x hx

theorem length_le_numColsOf (rows : List (List (List Char))) :
    ∀ r ∈ rows, r.length ≤ numColsOf rows := by
  intro r hr
  exact (foldl_max_ge (rows.map List.length) 0).2 r.length
    (List.mem_map_of_mem List.length hr)

theorem strWidth_getD_le_colMax (rows : List (List (List Char)))
    (r : List (List Char)) (hr : r ∈ rows) (c : Nat) :
    strWidth (r.getD c []) ≤ colMaxWidth rows c :=
  (foldl_max_ge _ 0).2 _ (List.mem_map_of_mem _ hr)

theorem bumpWidths_getD (cw : List Nat) (r : List (List Char)) (c : Nat)
    (h : r.length ≤ cw.length) :
    (bumpWidths cw r).getD c 0 =
      max (cw.getD c 0) (strWidth (r.getD c [])) := by
  induction cw generalizing r c with
  | nil =>
    cases r with
    | nil => simp [bumpWidths, strWidth]
    | cons x xs => simp at h
  | cons w ws ih =>
    cases r with
    | nil => simp [bumpWidths, strWidth]
    | cons cell cells =>
      cases c with
      | zero => simp [bumpWidths]
      | succ k =>
        simp only [bumpWidths, List.getD_cons_succ]
        exact ih cells k (by simpa using h)

theorem bumpWidths_length (cw : List Nat) (r : List (List Char))
    (h : r.length ≤ cw.length) :
    (bumpWidths cw r).length = cw.length := by
  induction cw generalizing r with
  | nil =>
    cases r with
    | nil => rfl
    | cons x xs => simp at h
  | cons w ws ih =>
    cases r with
    | nil => rfl
    | cons cell cells =>
      simp only [bumpWidths, List.length_cons]
      rw [ih cells (by simpa using h)]

theorem foldl_bump_getD (rows : List (List (List Char))) (cw : List Nat)
    (c : Nat) (h : ∀ r ∈ rows, r.length ≤ cw.length) :
    (rows.foldl bumpWidths cw).getD c 0 =
      (rows.map fun r => strWidth (r.getD c [])).foldl max (cw.getD c 0) := by
  induction rows generalizing cw with
  | nil => rfl
  | cons r rows ih =>
    rw [List.foldl_cons, List.map_cons, List.foldl_cons]
    have hr : r.length ≤ cw.length := h r (by simp)
    rw [ih (bumpWidths cw r) ?_, bumpWidths_getD cw r c hr]
    intro r' hr'
    rw [bumpWidths_length cw r hr]
    exact h r' (by simp [hr'])

theorem getD_replicate_zero (n c : Nat) :
    (List.replicate n (0 : Nat)).getD c 0 = 0 := by
  simp [List.getD]

theorem colWidthsList_getD (rows : List (List (List Char))) (n c : Nat)
    (h : ∀ r ∈ rows, r.length ≤ n) :
    (colWidthsList rows n).getD c 0 = colMaxWidth rows c := by
  unfold colWidthsList colMaxWidth
  rw [foldl_bump_getD rows _ c (by simpa using h), getD_replicate_zero]

theorem getD_map_range {α : Type} (f : Nat → α) (n c : Nat) (d : α)
    (h : c < n) : ((List.range n).map f).getD c d = f c := by
  simp [List.getD_eq_getElem?_getD, List.getElem?_map, List.getElem?_range h]

theorem cellFragments_rowLine (indent : Nat) (cw : List Nat) (n : Nat)
    (attrs : TextStyle) (row : List (List Char)) :
    cellFragments (rowLine indent cw n attrs row) =
      (List.range n).map fun c =>
        ⟨padToWidth (row.getD c []) (cw.getD c 0), attrs⟩ :=
  alternatingEntries_intersperse _ _

theorem bumpWidthsO_eq (cw : List Nat) (r : List (List Char))
    (h : r.length ≤ cw.length) :
    bumpWidthsO cw r = some (bumpWidths cw r) := by
  induction cw generalizing r with
  | nil =>
    cases r with
    | nil => rfl
    | cons x xs => simp at h
  | cons w ws ih =>
    cases r with
    | nil => rfl
    | cons cell cells =>
      simp only [bumpWidthsO, bumpWidths]
      rw [ih cells (by simpa using h)]
      rfl

theorem foldlM_bump_eq (rows : List (List (List Char))) (cw : List Nat)
    (h : ∀ r ∈ rows, r.length ≤ cw.length) :
    List.foldlM (fun cw r => bumpWidthsO cw r) cw rows =
      some (rows.foldl bumpWidths cw) := by
  induction rows generalizing cw with
  | nil => rfl
  | cons r rows ih =>
    have hr : r.length ≤ cw.length := h r (by simp)
    rw [List.foldlM_cons, List.foldl_cons, bumpWidthsO_eq cw r hr]
    show List.foldlM _ (bumpWidths cw r) rows = _
    refine ih (bumpWidths cw r) fun r' hr' => ?_
    rw [bumpWidths_length cw r hr]
    exact h r' (by simp [hr'])

theorem colWidthsListO_eq (rows : List (List (List Char))) (n : Nat)
    (h : ∀ r ∈ rows, r.length ≤ n) :
    colWidthsListO rows n = some (colWidthsList rows n) := by
  unfold colWidthsListO colWidthsList
  exact foldlM_bump_eq rows _ (by simpa using h)

theorem foldl_bump_length (rows : List (List (List Char))) (cw : List Nat)
    (h : ∀ r ∈ rows, r.length ≤ cw.length) :
    (rows.foldl bumpWidths cw).length = cw.length := by
  induction rows generalizing cw with
  | nil => rfl
  | cons r rows ih =>
    have hr : r.length ≤ cw.length := h r (by simp)
    rw [List.foldl_cons, ih (bumpWidths cw r) ?_, bumpWidths_length cw r hr]
    intro r' hr'
    rw [bumpWidths_length cw r hr]
    exact h r' (by simp [hr'])

theorem colWidthsList_length (rows : List (List (List Char))) (n : Nat)
    (h : ∀ r ∈ rows, r.length ≤ n) :
    (colWidthsList rows n).length = n := by
  unfold colWidthsList
  rw [foldl_bump_length rows _ (by simpa using h), List.length_replicate]

theorem mapM_eq_some_map {α β : Type} (l : List α) (f : α → Option β)
    (g : α → β) (h : ∀ a ∈ l, f a = some (g a)) :
    l.mapM f = some (l.map g) := by
  induction l with
  | nil => rfl
  | cons a t ih =>
    rw [List.mapM_cons, h a (by simp), ih fun a' ha' => h a' (by simp [ha'])]
    rfl

theorem get?_eq_some_getD (cw : List Nat) (c : Nat) (h : c < cw.length) :
    cw.get? c = some (cw.getD c 0) := by
  simp [List.getD, List.get?_eq_getElem?, List.getElem?_eq_getElem h]

theorem rowLineO_eq (indent : Nat) (cw : List Nat) (n : Nat)
    (attrs : TextStyle) (row : List (List Char)) (h : n ≤ cw.length) :
    rowLineO indent cw n attrs row = some (rowLine indent cw n attrs row) := by
  unfold rowLineO rowLine
  rw [mapM_eq_some_map _ _
    (fun c => (⟨padToWidth (row.getD c []) (cw.getD c 0), attrs⟩ : TextSpan))
    fun c hc => ?_]
  · rfl
  · rw [get?_eq_some_getD cw c (lt_of_lt_of_le (List.mem_range.mp hc) h)]
    rfl

theorem dashLineO_eq (indent : Nat) (cw : List Nat) (n : Nat)
    (h : n ≤ cw.length) :
    dashLineO indent cw n = some (dashLine indent cw n) := by
  unfold dashLineO dashLine
  rw [mapM_eq_some_map _ _
    (fun c => (⟨List.replicate (cw.getD c 0) '─', TextStyle.DIM⟩ : TextSpan))
    fun c hc => ?_]
  · rfl
  · rw [get?_eq_some_getD cw c (lt_of_lt_of_le (List.mem_range.mp hc) h)]
    rfl

theorem tableLinesO_eq (indent : Nat) (cw : List Nat) (n : Nat)
    (rows : List (List (List Char))) (h : n ≤ cw.length) :
    tableLinesO indent cw n rows = some (tableLines indent cw n rows) := by
  cases rows with
  | nil => rfl
  | cons hd tl =>
    simp only [tableLinesO, tableLines]
    rw [rowLineO_eq _ _ _ _ _ h, dashLineO_eq _ _ _ h,
      mapM_eq_some_map _ _ (rowLine indent cw n TextStyle.NONE)
        fun r _ => rowLineO_eq _ _ _ _ _ h]
    rfl

theorem renderTableO_eq (st : ParseState) :
    renderTableO st = some (renderTable st) := by
  unfold renderTableO renderTable
  by_cases h1 : st.table_rows = []
  · rw [if_pos h1, if_pos h1]
  · rw [if_neg h1, if_neg h1]
    by_cases h2 : numColsOf st.table_rows = 0
    · rw [if_pos h2, if_pos h2]
    · rw [if_neg h2, if_neg h2]
      have hlen : (colWidthsList st.table_rows (numColsOf st.table_rows)).length =
          numColsOf st.table_rows :=
        colWidthsList_length _ _ (length_le_numColsOf _)
      rw [colWidthsListO_eq _ _ (length_le_numColsOf _)]
      show (tableLinesO _ _ _ _).bind _ = _
      rw [tableLinesO_eq _ _ _ _ (le_of_eq hlen.symm)]
      rfl

theorem stepO_eq (st : ParseState) (e : MdEvent) :
    stepO st e = some (stepE st e) := by
  cases e <;> first
    | rfl
    | exact renderTableO_eq { st with in_table := false }

theorem foldlM_stepO_eq (events : List MdEvent) (st : ParseState) :
    List.foldlM stepO st events = some (events.foldl stepE st) := by
  induction events generalizing st with
  | nil => rfl
  | cons e es ih =>
    rw [List.foldlM_cons, List.foldl_cons, stepO_eq st e]
    exact ih (stepE st e)

/-! ## Claims -/

/-- Claim C1, counterexample: with `visible_rows = 0` (a one-row
terminal makes `content_rows()` zero) the window half of the invariant
fails after a single move-down command on a one-line document: the state
is `(cursor 0, top 0)` but `cursor < top + 0` is false. -/
theorem claim_C1_cex : ¬ ViewInv 1 0 (applyKeys 1 0 initView [.j]) := by decide

/-- Claim C1 (amended: the visible row count must be at least 1; the
code's clamp step cannot keep the cursor inside an empty window): for
every document length, every positive visible row count and every finite
key sequence from the initial viewport, the cursor stays within
`[0, max(0, total-1)]` and, when the document is nonempty, inside the
visible window. -/
theorem claim_C1_viewport_invariant (total page : Nat) (keys : List Key)
    (hp : 1 ≤ page) :
    ViewInv total page (applyKeys total page initView keys) := by
  have main : ∀ (ks : List Key) (s : ViewState), ViewInv total page s →
      ViewInv total page (applyKeys total page s ks) := by
    intro ks
    induction ks with
    | nil => intro s hs; exact hs
    | cons key ks ih =>
      intro s hs
      exact ih _ (handleKey_inv total page hp key s hs.1)
  have h0 : ViewInv total page initView := by
    unfold ViewInv initView
    refine ⟨Nat.zero_le _, fun _ => ?_⟩
    simp
    omega
  exact main keys initView h0

/-- Witness for claim C1 at a concrete instance. -/
theorem claim_C1_witness :
    ViewInv 100 10 (applyKeys 100 10 initView [.j, .d, .GG, .k]) :=
  claim_C1_viewport_invariant 100 10 [.j, .d, .GG, .k] (by decide)

/-- Claim C2, counterexample: when the attribute is already present,
insert followed by remove clears it instead of restoring the prior
value: starting from BOLD, inserting and removing BOLD yields NONE. -/
theorem claim_C2_cex :
    (TextStyle.BOLD.insert TextStyle.BOLD).remove TextStyle.BOLD ≠
      TextStyle.BOLD := by decide

/-- Claim C2 (amended: the round-trip holds provided `s` does not
already contain the attribute): for every in-range StyleSet `s` and
every single attribute `a` not contained in `s`, inserting then removing
`a` restores `s`. -/
theorem claim_C2_insert_remove (s a : TextStyle) (h32 : s.val < 2 ^ 32)
    (ha : a = TextStyle.BOLD ∨ a = TextStyle.ITALIC ∨ a = TextStyle.DIM ∨
        a = TextStyle.HEADING ∨ a = TextStyle.QUOTE ∨ a = TextStyle.CODE)
    (hc : s.contains a = false) :
    (s.insert a).remove a = s := by
  obtain ⟨sv⟩ := s
  obtain ⟨k, hk, hav⟩ : ∃ k, k < 32 ∧ a.val = 2 ^ k := by
    rcases ha with h | h | h | h | h | h <;> subst h
    · exact ⟨0, by norm_num, by norm_num [TextStyle.BOLD]⟩
    · exact ⟨1, by norm_num, by norm_num [TextStyle.ITALIC]⟩
    · exact ⟨2, by norm_num, by norm_num [TextStyle.DIM]⟩
    · exact ⟨3, by norm_num, by norm_num [TextStyle.HEADING]⟩
    · exact ⟨4, by norm_num, by norm_num [TextStyle.QUOTE]⟩
    · exact ⟨5, by norm_num, by norm_num [TextStyle.CODE]⟩
  have hcv : ¬ sv &&& a.val = a.val := by
    simpa [TextStyle.contains] using hc
  have hb : sv.testBit k = false :=
    testBit_false_of_not_superset sv k (by rw [← hav]; exact hcv)
  unfold TextStyle.insert TextStyle.remove
  simp only [TextStyle.mk.injEq, hav]
  exact insert_remove_bit sv k h32 hk hb

/-- Witness for claim C2 at a concrete instance: ITALIC does not
contain BOLD, and the BOLD round-trip on it is the identity. -/
theorem claim_C2_witness :
    (TextStyle.ITALIC.insert TextStyle.BOLD).remove TextStyle.BOLD =
      TextStyle.ITALIC :=
  claim_C2_insert_remove TextStyle.ITALIC TextStyle.BOLD (by norm_num [TextStyle.ITALIC])
    (Or.inl rfl) (by decide)

/-- Claim C3, counterexample: with declared starting index 5 the two
markers emitted are "5. " and "6. ", not "1. " and "2. " — the item
counter starts from the declared index minus one, so the markers are not
independent of the declared start. -/
theorem claim_C3_cex :
    parseMarkdown (twoItemOrderedList 5) =
      ⟨[⟨[⟨['5', '.', ' '], TextStyle.NONE⟩, ⟨['x'], TextStyle.NONE⟩], 4⟩,
        ⟨[⟨['6', '.', ' '], TextStyle.NONE⟩, ⟨['y'], TextStyle.NONE⟩], 4⟩,
        ⟨[], 0⟩]⟩ ∧
      (['5', '.', ' '] : List Char) ≠ ['1', '.', ' '] := by decide

/-- Claim C3 (amended: the markers follow the declared starting index
`s` — they are "{s}. " and "{s+1}. ", so "1. " and "2. " appear exactly
when the declared index is 1, not regardless of it): the two-item
ordered list with declared start `s` produces two marker fragments
rendering `s` and `s+1`. -/
theorem claim_C3_markers (s : Nat) (h1 : 1 ≤ s) (h2 : s + 1 < 2 ^ 64) :
    parseMarkdown (twoItemOrderedList s) =
      ⟨[⟨[⟨Nat.toDigits 10 s ++ ['.', ' '], TextStyle.NONE⟩,
          ⟨['x'], TextStyle.NONE⟩], 4⟩,
        ⟨[⟨Nat.toDigits 10 (s + 1) ++ ['.', ' '], TextStyle.NONE⟩,
          ⟨['y'], TextStyle.NONE⟩], 4⟩,
        ⟨[], 0⟩]⟩ := by
  have e1 : (s - 1 + 1) % 2 ^ 64 = s := by omega
  have e2 : (s + 1) % 2 ^ 64 = s + 1 := by omega
  simp [parseMarkdown, twoItemOrderedList, stepE, pushSpan, flushLine,
    addEmptyLine, initParseState, e1, e2]
  constructor <;> (congr 1 <;> omega)

/-- Witness for claim C3 at declared start 7. -/
theorem claim_C3_witness :
    parseMarkdown (twoItemOrderedList 7) =
      ⟨[⟨[⟨Nat.toDigits 10 7 ++ ['.', ' '], TextStyle.NONE⟩,
          ⟨['x'], TextStyle.NONE⟩], 4⟩,
        ⟨[⟨Nat.toDigits 10 (7 + 1) ++ ['.', ' '], TextStyle.NONE⟩,
          ⟨['y'], TextStyle.NONE⟩], 4⟩,
        ⟨[], 0⟩]⟩ :=
  claim_C3_markers 7 (by norm_num) (by norm_num)

/-- Claim C4: for a closed table with at least one accumulated row and
at least one column, `render_table` appends the header line, the dash
separator, the data lines and a blank line; and every rendered cell row
— header (BOLD+HEADING) or data (no style) alike — carries exactly one
cell fragment per column (the column count being the maximum row
length), each padded to the maximum display width of its column over
all rows. -/
theorem claim_C4_table_alignment (st : ParseState)
    (hrows : st.table_rows ≠ []) (hcols : 0 < numColsOf st.table_rows) :
    ((renderTable st).doc.lines =
      st.doc.lines ++
        tableLines st.indent_level
          (colWidthsList st.table_rows (numColsOf st.table_rows))
          (numColsOf st.table_rows) st.table_rows ++
        [{ spans := [], indent := 0 }]) ∧
    ∀ row ∈ st.table_rows, ∀ attrs : TextStyle,
      (cellFragments (rowLine st.indent_level
          (colWidthsList st.table_rows (numColsOf st.table_rows))
          (numColsOf st.table_rows) attrs row)).length =
        numColsOf st.table_rows ∧
      ∀ c < numColsOf st.table_rows,
        strWidth (((cellFragments (rowLine st.indent_level
            (colWidthsList st.table_rows (numColsOf st.table_rows))
            (numColsOf st.table_rows) attrs row)).getD c
              ⟨[], TextStyle.NONE⟩).text) =
          colMaxWidth st.table_rows c := by
  constructor
  · have hne : ¬ numColsOf st.table_rows = 0 := by omega
    simp [renderTable, hrows, hne, addEmptyLine]
  · intro row hrow attrs
    rw [cellFragments_rowLine]
    constructor
    · simp
    · intro c hc
      rw [getD_map_range _ _ _ _ hc]
      show strWidth (padToWidth _ _) = _
      rw [strWidth_padToWidth,
        colWidthsList_getD st.table_rows _ c (length_le_numColsOf _)]
      have hle := strWidth_getD_le_colMax st.table_rows row hrow c
      omega

/-- Witness for claim C4 on the spec's example table (header `A`,`BB`;
data `C`,`D`). -/
theorem claim_C4_witness :
    ((renderTable tableStDemo).doc.lines =
      tableStDemo.doc.lines ++
        tableLines tableStDemo.indent_level
          (colWidthsList tableStDemo.table_rows (numColsOf tableStDemo.table_rows))
          (numColsOf tableStDemo.table_rows) tableStDemo.table_rows ++
        [{ spans := [], indent := 0 }]) ∧
    ∀ row ∈ tableStDemo.table_rows, ∀ attrs : TextStyle,
      (cellFragments (rowLine tableStDemo.indent_level
          (colWidthsList tableStDemo.table_rows (numColsOf tableStDemo.table_rows))
          (numColsOf tableStDemo.table_rows) attrs row)).length =
        numColsOf tableStDemo.table_rows ∧
      ∀ c < numColsOf tableStDemo.table_rows,
        strWidth (((cellFragments (rowLine tableStDemo.indent_level
            (colWidthsList tableStDemo.table_rows (numColsOf tableStDemo.table_rows))
            (numColsOf tableStDemo.table_rows) attrs row)).getD c
              ⟨[], TextStyle.NONE⟩).text) =
          colMaxWidth tableStDemo.table_rows c :=
  claim_C4_table_alignment tableStDemo (by decide) (by decide)

/-- Claim C5: the transducer is total — for every finite input event
stream, including empty or arbitrarily malformed ones, the checked
semantics (in which the only panicking operations, the width-vector
indexings inside table rendering, surface as `none`) succeeds and
returns the Document computed by the plain semantics. -/
theorem claim_C5_transducer_total (events : List MdEvent) :
    parseMarkdownO events = some (parseMarkdown events) := by
  unfold parseMarkdownO parseMarkdown
  rw [foldlM_stepO_eq]
  rfl

/-- Claim C6: padding appends exactly `target - width` ASCII spaces when
the string is narrower than the target, returns the string unchanged
(never truncated) when its width meets or exceeds the target, and is
idempotent. -/
theorem claim_C6_pad_to_width (s : List Char) (w : Nat) :
    (strWidth s < w →
      padToWidth s w = s ++ List.replicate (w - strWidth s) ' ') ∧
    (w ≤ strWidth s → padToWidth s w = s) ∧
    padToWidth (padToWidth s w) w = padToWidth s w := by
  refine ⟨fun h => ?_, fun h => padToWidth_of_le s w h, ?_⟩
  · unfold padToWidth; rw [if_neg (by omega)]
  · apply padToWidth_of_le
    rw [strWidth_padToWidth]
    omega

/-- Witness for claim C6 at concrete instances: a width-1 string padded
to 3 gains two spaces; padding to 1 leaves it unchanged. -/
theorem claim_C6_witness :
    padToWidth ['a'] 3 = ['a'] ++ List.replicate (3 - strWidth ['a']) ' ' ∧
      padToWidth ['a'] 1 = ['a'] :=
  ⟨(claim_C6_pad_to_width ['a'] 3).1 (by decide),
    (claim_C6_pad_to_width ['a'] 1).2.1 (by decide)⟩

/-- Claim C7: on a list-end event the transducer pops the list-context
stack, decreases the indent by 4 with a floor at 0, and appends a blank
line exactly when the indent has returned to 0 after the decrease. -/
theorem claim_C7_list_end (st : ParseState) :
    (stepE st .listEnd).list_stack = st.list_stack.tail ∧
    (stepE st .listEnd).indent_level = st.indent_level - 4 ∧
    (stepE st .listEnd).doc.lines =
      st.doc.lines ++
        (if st.indent_level - 4 = 0 then [{ spans := [], indent := 0 }]
         else []) := by
  simp only [stepE]
  split_ifs with h <;> simp [addEmptyLine, h]

/-- Claim C8: from the initial viewport over a 100-line document with 10
visible rows, the jump-to-last-line command puts the cursor on line 99
and, after the clamp step, the window top on line 90. -/
theorem claim_C8_jump_last :
    (handleKey 100 10 .GG initView).cursor_line = 99 ∧
    (handleKey 100 10 .GG initView).top_line = 90 := by decide

/-- Claim C9: the vertical commands (down, up, half-page down, half-page
up, jump to last) and unrecognized keys leave the horizontal offset
unchanged; jump-to-first resets it to 0, and only the two horizontal
commands move it (right by one with the `usize` wrap, left by one
floored at 0). -/
theorem claim_C9_left_col_frame (total page : Nat) (s : ViewState) :
    (handleKey total page .j s).left_col = s.left_col ∧
    (handleKey total page .k s).left_col = s.left_col ∧
    (handleKey total page .d s).left_col = s.left_col ∧
    (handleKey total page .u s).left_col = s.left_col ∧
    (handleKey total page .GG s).left_col = s.left_col ∧
    (handleKey total page .other s).left_col = s.left_col ∧
    (handleKey total page .g s).left_col = 0 ∧
    (handleKey total page .l s).left_col = (s.left_col + 1) % 2 ^ 64 ∧
    (handleKey total page .h s).left_col = s.left_col - 1 := by
  and_intros <;> simp [handleKey, scrollToCursor_left_col]

/-- Claim C10: the blank separator line pushed by `add_empty_line` is
`RenderLine::default()` — zero fragments and indent 0 — for every parse
state, in particular also when the current indent level is nonzero. -/
theorem claim_C10_blank_line (st : ParseState) :
    (addEmptyLine st).doc.lines =
      st.doc.lines ++ [{ spans := [], indent := 0 }] := rfl

end Xcat
